import Mathlib

/-!
Shallow embedding of `src/agent_service.py` (the `AgentService` wrapper around
the pydantic-ai agent runtime) and proofs about its event-processing loop.

The external collaborators (the agent run iterator, per-node event streams,
the MCP tool-server subprocess) are opaque: we model the observable inputs the
code inspects — the sequence of yielded nodes, each node's event stream, and
the points where an exception can arise — as data, and the Python code's
processing of them as pure Lean functions.  Exceptions are threaded explicitly
(the third component of each handler's result is the pending exception's
`str(e)`); caller callbacks are modelled by presence flags plus a trace of the
invocations that actually happened, in order.
-/

namespace AgentService

/-- One entry of `response["tool_calls"]`: the dict
`{"tool_name": ..., "args": ...}` built in `_handle_tool_call`. -/
structure ToolCallRec where
  tool_name : String
  args : String
deriving Repr, DecidableEq

/-- An event yielded by a model-request node's stream.  The code probes
`hasattr(event, 'delta') and hasattr(event.delta, 'content_delta')`;
`contentDelta d` is an event carrying that attribute chain with value `d`
(`none` models Python `None`), `other` is any event without it. -/
inductive ModelEvent where
  | contentDelta (d : Option String)
  | other
deriving Repr, DecidableEq

/-- An event yielded by a tool-invocation node's stream.
`callPart name args` is an event with `event.part.tool_name = name` and
`event.part.args = args` (`none` models Python `None`);
`result texts` is an event with `event.result.content` present, where `texts`
lists the `.text` of the segments of `event.result.content.content`;
`other` is any event matching neither `hasattr` probe. -/
inductive ToolEvent where
  | callPart (tool_name : String) (args : Option String)
  | result (content : List String)
  | other
deriving Repr, DecidableEq

/-- A node yielded by the agent run.  `streamErr` is the exception message
(`str(e)`) raised by the node's event stream after its listed events, if any;
`other` is a node for which both `Agent.is_model_request_node` and
`Agent.is_call_tools_node` are false. -/
inductive Node where
  | modelRequest (events : List ModelEvent) (streamErr : Option String)
  | callTools (events : List ToolEvent) (streamErr : Option String)
  | other
deriving Repr, DecidableEq

/-- One `process_input` run as observed from outside: the nodes the run
iterator yields, and `iterErr`, the exception message raised by the iteration
itself (after those nodes) if any. -/
structure RunOutcome where
  nodes : List Node
  iterErr : Option String
deriving Repr, DecidableEq

/-- The `response` dict of `process_input`.  `error = none` models the key
being absent. -/
structure Response where
  assistant_content : String
  tool_calls : List ToolCallRec
  tool_results : List String
  error : Option String
deriving Repr, DecidableEq

/-- The fresh `response` dict built at the top of `process_input`. -/
def freshResponse : Response :=
  { assistant_content := "", tool_calls := [], tool_results := [], error := none }

/-- One observed invocation of a caller-supplied callback. -/
inductive CallbackCall where
  | assistantMsg (delta : String)
  | toolCall (tc : ToolCallRec)
  | toolResult (text : String)
deriving Repr, DecidableEq

/-- Which of the three optional callbacks the caller supplied
(`true` = a callable was passed, `false` = `None`). -/
structure Callbacks where
  onAssistant : Bool
  onToolCall : Bool
  onToolResult : Bool
deriving Repr, DecidableEq

/-- All three callbacks supplied. -/
def allCallbacks : Callbacks := ⟨true, true, true⟩

/-- No callback supplied (the defaults of `process_input`). -/
def noCallbacks : Callbacks := ⟨false, false, false⟩

/-- Characters stripped by Python `str.strip()`: exactly the code points for
which `str.isspace()` holds (ASCII whitespace, the information separators
U+001C-U+001F, and the Unicode space characters U+0085, U+00A0, U+1680,
U+2000-U+200A, U+2028, U+2029, U+202F, U+205F, U+3000). -/
def isPyWhitespace (c : Char) : Bool :=
  c = ' ' || c = '\t' || c = '\n' || c = '\r' || c = '\x0b' || c = '\x0c'
    || c = '\x1c' || c = '\x1d' || c = '\x1e' || c = '\x1f'
    || c = '\x85' || c = '\xa0' || c = '\u1680'
    || ('\u2000' ≤ c && c ≤ '\u200a')
    || c = '\u2028' || c = '\u2029' || c = '\u202f' || c = '\u205f'
    || c = '\u3000'

/-- Python `s.strip()`: drop whitespace from both ends. -/
def pyStrip (s : String) : String :=
  String.mk (((s.toList.dropWhile isPyWhitespace).reverse.dropWhile isPyWhitespace).reverse)

/-- Concatenation of a list of strings, `d1 ++ ... ++ dn`. -/
def concatStrings : List String → String
  | [] => ""
  | s :: rest => s ++ concatStrings rest

/-- Minimal JSON string escaping used by `jsonDumps`. -/
def jsonEscapeChar (c : Char) : String :=
  if c = '\\' then "\\\\"
  else if c = '\"' then "\\\""
  else String.singleton c

/-- Escape a string for inclusion in a JSON document. -/
def jsonEscape (s : String) : String :=
  concatStrings (s.toList.map jsonEscapeChar)

/-- Model of `json.dumps(history, indent=2)` on the (opaque, serializable)
history entries, each rendered as a JSON string. -/
def jsonDumps (h : List String) : String :=
  if h = [] then "[]"
  else "[\n" ++ String.intercalate ",\n"
        (h.map (fun s => "  \"" ++ jsonEscape s ++ "\"")) ++ "\n]"

/-- `AgentService._prepare_input_with_history`: `if not history: return
user_input` (both `None` and `[]` are falsy), else the f-string
`"Previous conversation:\n{json.dumps(history, indent=2)}\n\nCurrent query:
{user_input}"`. -/
def prepare_input_with_history (user_input : String)
    (history : Option (List String)) : String :=
  match history with
  | none => user_input
  | some h =>
    if h = [] then user_input
    else "Previous conversation:\n" ++ jsonDumps h
          ++ "\n\nCurrent query: " ++ user_input

/-- The body of the `async for event in stream` loop of
`_handle_model_request`: fold over the model events, accumulating
`collected_content` and the trace of `on_assistant_message` invocations.
An event contributes only when it carries `delta.content_delta` and that
value is truthy (not `None`, not `""`). -/
def collectModel (cbs : Callbacks) :
    List ModelEvent → String → List CallbackCall → String × List CallbackCall
  | [], acc, tr => (acc, tr)
  | ModelEvent.contentDelta d :: rest, acc, tr =>
    match d with
    | some s =>
      if s ≠ "" then
        collectModel cbs rest (acc ++ s)
          (tr ++ if cbs.onAssistant then [CallbackCall.assistantMsg s] else [])
      else collectModel cbs rest acc tr
    | none => collectModel cbs rest acc tr
  | ModelEvent.other :: rest, acc, tr => collectModel cbs rest acc tr

/-- `AgentService._handle_model_request`: run the event loop; if the stream
raises (`streamErr`) the trailing assignment
`response["assistant_content"] = collected_content` never executes and the
exception propagates; otherwise `assistant_content` is overwritten with the
accumulated text. -/
def handle_model_request (cbs : Callbacks) (events : List ModelEvent)
    (streamErr : Option String) (resp : Response) :
    Response × List CallbackCall × Option String :=
  let out := collectModel cbs events "" []
  match streamErr with
  | some m => (resp, out.2, some m)
  | none => ({ resp with assistant_content := out.1 }, out.2, none)

/-- One iteration of the `async for event in stream` loop of
`_handle_tool_call`.  A `callPart` event appends a `{tool_name, args}` record
when `event.part.args` is truthy and `event.part.args.strip()` is neither
`""` nor `"\x7b\x7d"`; a `result` event appends
`event.result.content.content[0].text`, raising `IndexError` (message
`"list index out of range"`) when the segment list is empty. -/
def toolEventStep (cbs : Callbacks) (resp : Response) (e : ToolEvent) :
    Response × List CallbackCall × Option String :=
  match e with
  | ToolEvent.callPart name args =>
    match args with
    | some a =>
      if a ≠ "" && pyStrip a ≠ "" && pyStrip a ≠ "\x7b\x7d" then
        let tc : ToolCallRec := ⟨name, a⟩
        ({ resp with tool_calls := resp.tool_calls ++ [tc] },
         (if cbs.onToolCall then [CallbackCall.toolCall tc] else []), none)
      else (resp, [], none)
    | none => (resp, [], none)
  | ToolEvent.result content =>
    match content with
    | [] => (resp, [], some "list index out of range")
    | t :: _ =>
      ({ resp with tool_results := resp.tool_results ++ [t] },
       (if cbs.onToolResult then [CallbackCall.toolResult t] else []), none)
  | ToolEvent.other => (resp, [], none)

/-- The event loop of `_handle_tool_call`: process events in order, stopping
at (and propagating) the first exception. -/
def toolEventLoop (cbs : Callbacks) :
    List ToolEvent → Response → Response × List CallbackCall × Option String
  | [], resp => (resp, [], none)
  | e :: rest, resp =>
    let out := toolEventStep cbs resp e
    match out.2.2 with
    | some m => (out.1, out.2.1, some m)
    | none =>
      let outRest := toolEventLoop cbs rest out.1
      (outRest.1, out.2.1 ++ outRest.2.1, outRest.2.2)

/-- `AgentService._handle_tool_call`: the event loop, then -- when the loop
itself did not raise -- the exception the stream raises after its events,
if any. -/
def handle_tool_call (cbs : Callbacks) (events : List ToolEvent)
    (streamErr : Option String) (resp : Response) :
    Response × List CallbackCall × Option String :=
  let out := toolEventLoop cbs events resp
  match out.2.2 with
  | some m => (out.1, out.2.1, some m)
  | none => (out.1, out.2.1, streamErr)

/-- Dispatch of one node inside `_process_agent_run`:
`Agent.is_model_request_node` → `_handle_model_request`,
`Agent.is_call_tools_node` → `_handle_tool_call`, anything else is skipped. -/
def process_node (cbs : Callbacks) (n : Node) (resp : Response) :
    Response × List CallbackCall × Option String :=
  match n with
  | Node.modelRequest evs se => handle_model_request cbs evs se resp
  | Node.callTools evs se => handle_tool_call cbs evs se resp
  | Node.other => (resp, [], none)

/-- `AgentService._process_agent_run`: iterate the run's nodes in order,
stopping at (and propagating) the first exception. -/
def process_agent_run (cbs : Callbacks) :
    List Node → Response → Response × List CallbackCall × Option String
  | [], resp => (resp, [], none)
  | n :: rest, resp =>
    let out := process_node cbs n resp
    match out.2.2 with
    | some m => (out.1, out.2.1, some m)
    | none =>
      let outRest := process_agent_run cbs rest out.1
      (outRest.1, out.2.1 ++ outRest.2.1, outRest.2.2)

/-- `AgentService.process_input`: build a fresh response, process the run,
and catch any exception (from node processing, or from the run iteration
itself after the listed nodes), recording `str(e)` under `error`.  Returns
the response record together with the trace of callback invocations. -/
def process_input (cbs : Callbacks) (run : RunOutcome) :
    Response × List CallbackCall :=
  let out := process_agent_run cbs run.nodes freshResponse
  match out.2.2 with
  | some m => ({ out.1 with error := some m }, out.2.1)
  | none =>
    match run.iterErr with
    | some m => ({ out.1 with error := some m }, out.2.1)
    | none => (out.1, out.2.1)

/-- The constructed agent of `AgentService.__init__`: model name, system
prompt, and the argument vector of the `MCPServerStdio` subprocess command
(the current interpreter is implicit). -/
structure AgentState where
  model_name : String
  system_prompt : String
  mcp_args : List String
deriving Repr, DecidableEq

/-- The default `system_prompt` of `AgentService.__init__`. -/
def default_system_prompt : String :=
  "You are a helpful assistant. Only use tools if needed for a user query."

/-- `AgentService.__init__`: read `BASE_MODEL` from the environment
(modelled as a partial map from names to values); `if not model_name`
(absent, or present but empty, both falsy) raise
`ValueError("BASE_MODEL environment variable is required")`; otherwise
construct the agent bound to that model. -/
def agentServiceInit (env : String → Option String) (system_prompt : String) :
    Except String AgentState :=
  match env "BASE_MODEL" with
  | none => Except.error "BASE_MODEL environment variable is required"
  | some model_name =>
    if model_name = "" then
      Except.error "BASE_MODEL environment variable is required"
    else Except.ok ⟨model_name, system_prompt, ["mcp_server.py"]⟩

/-! ### Observation helpers (spec side) -/

/-- The text deltas carried by a model-event sequence, in arrival order. -/
def modelDeltas (evs : List ModelEvent) : List String :=
  evs.filterMap (fun e =>
    match e with
    | ModelEvent.contentDelta (some d) => some d
    | _ => none)

/-- The tool-call records delivered through callbacks, in order. -/
def traceToolCalls (tr : List CallbackCall) : List ToolCallRec :=
  tr.filterMap (fun c =>
    match c with
    | CallbackCall.toolCall tc => some tc
    | _ => none)

/-- The tool-result texts delivered through callbacks, in order. -/
def traceToolResults (tr : List CallbackCall) : List String :=
  tr.filterMap (fun c =>
    match c with
    | CallbackCall.toolResult t => some t
    | _ => none)

/-- The first exception a tool-event sequence raises (an empty result
payload triggers the unguarded `content[0]`), if any. -/
def toolEventsFirstErr : List ToolEvent → Option String
  | [] => none
  | ToolEvent.result [] :: _ => some "list index out of range"
  | _ :: rest => toolEventsFirstErr rest

/-- The first exception processing one node raises, if any. -/
def nodeFirstErr : Node → Option String
  | Node.modelRequest _ se => se
  | Node.callTools evs se =>
    match toolEventsFirstErr evs with
    | some m => some m
    | none => se
  | Node.other => none

/-- The first exception processing a node sequence raises, if any. -/
def nodesFirstErr : List Node → Option String
  | [] => none
  | n :: rest =>
    match nodeFirstErr n with
    | some m => some m
    | none => nodesFirstErr rest

/-- The first exception one `process_input` call encounters, if any. -/
def firstExceptionMsg (run : RunOutcome) : Option String :=
  match nodesFirstErr run.nodes with
  | some m => some m
  | none => run.iterErr

/-- Whether a node's processing is exception-free. -/
def nodeErrorFree (n : Node) : Bool :=
  (nodeFirstErr n).isNone

/-- Whether a whole run's node processing is exception-free. -/
def runErrorFree (ns : List Node) : Bool :=
  ns.all nodeErrorFree

/-- The accumulated text of the last model-request node of a node sequence,
when one exists. -/
def lastModelText : List Node → Option String
  | [] => none
  | Node.modelRequest evs _ :: rest =>
    match lastModelText rest with
    | some s => some s
    | none => some (concatStrings (modelDeltas evs))
  | _ :: rest => lastModelText rest

end AgentService

namespace AgentService

/-! ### Basic string and trace lemmas -/

theorem string_empty_append (s : String) : "" ++ s = s := rfl

theorem concatStrings_append (l1 l2 : List String) :
    concatStrings (l1 ++ l2) = concatStrings l1 ++ concatStrings l2 := by
  induction l1 with
  | nil => simp [concatStrings, string_empty_append]
  | cons s rest ih => simp [concatStrings, ih, String.append_assoc]

theorem traceToolCalls_append (t1 t2 : List CallbackCall) :
    traceToolCalls (t1 ++ t2) = traceToolCalls t1 ++ traceToolCalls t2 := by
  simp [traceToolCalls]

theorem traceToolResults_append (t1 t2 : List CallbackCall) :
    traceToolResults (t1 ++ t2) = traceToolResults t1 ++ traceToolResults t2 := by
  simp [traceToolResults]

theorem traceToolCalls_assistant (l : List String) :
    traceToolCalls (l.map CallbackCall.assistantMsg) = [] := by
  induction l with
  | nil => simp [traceToolCalls]
  | cons s rest ih => simp [traceToolCalls]

theorem traceToolResults_assistant (l : List String) :
    traceToolResults (l.map CallbackCall.assistantMsg) = [] := by
  induction l with
  | nil => simp [traceToolResults]
  | cons s rest ih => simp [traceToolResults]

/-! ### The model-event loop -/

theorem collectModel_eq (cbs : Callbacks) (evs : List ModelEvent)
    (acc : String) (tr : List CallbackCall) :
    collectModel cbs evs acc tr
      = (acc ++ concatStrings (modelDeltas evs),
         tr ++ (if cbs.onAssistant then
                  ((modelDeltas evs).filter (fun d => d ≠ "")).map
                    CallbackCall.assistantMsg
                else [])) := by
  induction evs generalizing acc tr with
  | nil => simp [collectModel, modelDeltas, concatStrings]
  | cons e rest ih =>
    cases e with
    | contentDelta d =>
      cases d with
      | some s =>
        by_cases hs : s = ""
        · subst hs
          simp [collectModel, modelDeltas, concatStrings, ih,
            string_empty_append]
        · cases hA : cbs.onAssistant <;>
            simp [collectModel, hs, modelDeltas, concatStrings, ih, hA,
              String.append_assoc]
      | none => simp [collectModel, modelDeltas, ih]
    | other => simp [collectModel, modelDeltas, ih]

/-! ### The tool-event loop -/

theorem toolEventStep_frame (cbs : Callbacks) (resp : Response) (e : ToolEvent) :
    (toolEventStep cbs resp e).1.assistant_content = resp.assistant_content
    ∧ (toolEventStep cbs resp e).1.error = resp.error := by
  cases e with
  | callPart name args =>
    cases args with
    | some a =>
      simp only [toolEventStep]
      split <;> simp
    | none => simp [toolEventStep]
  | result content =>
    cases content with
    | nil => simp [toolEventStep]
    | cons t rest => simp [toolEventStep]
  | other => simp [toolEventStep]

theorem toolEventStep_lists (resp : Response) (e : ToolEvent) :
    (toolEventStep allCallbacks resp e).1.tool_calls
        = resp.tool_calls ++ traceToolCalls (toolEventStep allCallbacks resp e).2.1
    ∧ (toolEventStep allCallbacks resp e).1.tool_results
        = resp.tool_results ++ traceToolResults (toolEventStep allCallbacks resp e).2.1 := by
  cases e with
  | callPart name args =>
    cases args with
    | some a =>
      simp only [toolEventStep]
      split <;> simp [allCallbacks, traceToolCalls, traceToolResults]
    | none => simp [toolEventStep, traceToolCalls, traceToolResults]
  | result content =>
    cases content with
    | nil => simp [toolEventStep, traceToolCalls, traceToolResults]
    | cons t rest =>
      simp [toolEventStep, allCallbacks, traceToolCalls, traceToolResults]
  | other => simp [toolEventStep, traceToolCalls, traceToolResults]

theorem toolEventStep_err (cbs : Callbacks) (resp : Response) (e : ToolEvent) :
    (toolEventStep cbs resp e).2.2
      = (match e with
         | ToolEvent.result [] => some "list index out of range"
         | _ => none) := by
  cases e with
  | callPart name args =>
    cases args with
    | some a =>
      simp only [toolEventStep]
      split <;> simp
    | none => simp [toolEventStep]
  | result content =>
    cases content with
    | nil => simp [toolEventStep]
    | cons t rest => simp [toolEventStep]
  | other => simp [toolEventStep]

theorem toolEventLoop_frame (cbs : Callbacks) (evs : List ToolEvent)
    (resp : Response) :
    (toolEventLoop cbs evs resp).1.assistant_content = resp.assistant_content
    ∧ (toolEventLoop cbs evs resp).1.error = resp.error := by
  induction evs generalizing resp with
  | nil => simp [toolEventLoop]
  | cons e rest ih =>
    have hf := toolEventStep_frame cbs resp e
    cases herr : (toolEventStep cbs resp e).2.2 with
    | some m => simp [toolEventLoop, herr, hf.1, hf.2]
    | none =>
      have := ih (toolEventStep cbs resp e).1
      simp [toolEventLoop, herr, this.1, this.2, hf.1, hf.2]

theorem toolEventLoop_lists (evs : List ToolEvent) (resp : Response) :
    (toolEventLoop allCallbacks evs resp).1.tool_calls
        = resp.tool_calls ++ traceToolCalls (toolEventLoop allCallbacks evs resp).2.1
    ∧ (toolEventLoop allCallbacks evs resp).1.tool_results
        = resp.tool_results
            ++ traceToolResults (toolEventLoop allCallbacks evs resp).2.1 := by
  induction evs generalizing resp with
  | nil => simp [toolEventLoop, traceToolCalls, traceToolResults]
  | cons e rest ih =>
    have hs := toolEventStep_lists resp e
    cases herr : (toolEventStep allCallbacks resp e).2.2 with
    | some m => simp [toolEventLoop, herr, hs.1, hs.2]
    | none =>
      have hr := ih (toolEventStep allCallbacks resp e).1
      constructor
      · simp [toolEventLoop, herr, hr.1, hs.1, traceToolCalls_append,
          List.append_assoc]
      · simp [toolEventLoop, herr, hr.2, hs.2, traceToolResults_append,
          List.append_assoc]

theorem toolEventLoop_err (cbs : Callbacks) (evs : List ToolEvent)
    (resp : Response) :
    (toolEventLoop cbs evs resp).2.2 = toolEventsFirstErr evs := by
  induction evs generalizing resp with
  | nil => simp [toolEventLoop, toolEventsFirstErr]
  | cons e rest ih =>
    have hse := toolEventStep_err cbs resp e
    cases e with
    | callPart name args =>
      have : (toolEventStep cbs resp (ToolEvent.callPart name args)).2.2 = none := by
        simpa using hse
      simp [toolEventLoop, this, ih, toolEventsFirstErr]
    | result content =>
      cases content with
      | nil =>
        simp [toolEventLoop, toolEventStep, toolEventsFirstErr]
      | cons t r =>
        have : (toolEventStep cbs resp (ToolEvent.result (t :: r))).2.2 = none := by
          simpa using hse
        simp [toolEventLoop, this, ih, toolEventsFirstErr]
    | other =>
      have : (toolEventStep cbs resp ToolEvent.other).2.2 = none := by
        simpa using hse
      simp [toolEventLoop, this, ih, toolEventsFirstErr]

/-! ### Node dispatch and the run loop -/

theorem handle_model_request_content (cbs : Callbacks) (evs : List ModelEvent)
    (resp : Response) :
    (handle_model_request cbs evs none resp).1.assistant_content
      = concatStrings (modelDeltas evs) := by
  simp [handle_model_request, collectModel_eq, string_empty_append]

theorem process_node_err (cbs : Callbacks) (n : Node) (resp : Response) :
    (process_node cbs n resp).2.2 = nodeFirstErr n := by
  cases n with
  | modelRequest evs se =>
    cases se <;> simp [process_node, handle_model_request, nodeFirstErr]
  | callTools evs se =>
    have h := toolEventLoop_err cbs evs resp
    cases hl : toolEventsFirstErr evs with
    | some m => simp [process_node, handle_tool_call, h, hl, nodeFirstErr]
    | none => simp [process_node, handle_tool_call, h, hl, nodeFirstErr]
  | other => simp [process_node, nodeFirstErr]

theorem process_node_error_field (cbs : Callbacks) (n : Node) (resp : Response) :
    (process_node cbs n resp).1.error = resp.error := by
  cases n with
  | modelRequest evs se =>
    cases se <;> simp [process_node, handle_model_request]
  | callTools evs se =>
    have h := (toolEventLoop_frame cbs evs resp).2
    cases hl : (toolEventLoop cbs evs resp).2.2 with
    | some m => simp [process_node, handle_tool_call, hl, h]
    | none => simp [process_node, handle_tool_call, hl, h]
  | other => simp [process_node]

theorem process_node_lists (n : Node) (resp : Response) :
    (process_node allCallbacks n resp).1.tool_calls
        = resp.tool_calls ++ traceToolCalls (process_node allCallbacks n resp).2.1
    ∧ (process_node allCallbacks n resp).1.tool_results
        = resp.tool_results
            ++ traceToolResults (process_node allCallbacks n resp).2.1 := by
  cases n with
  | modelRequest evs se =>
    have hm := collectModel_eq allCallbacks evs "" []
    have htc : traceToolCalls (collectModel allCallbacks evs "" []).2 = [] := by
      rw [hm]
      simp [allCallbacks, traceToolCalls_assistant]
    have htr : traceToolResults (collectModel allCallbacks evs "" []).2 = [] := by
      rw [hm]
      simp [allCallbacks, traceToolResults_assistant]
    cases se <;>
      simp [process_node, handle_model_request, htc, htr]
  | callTools evs se =>
    have h := toolEventLoop_lists evs resp
    cases hl : (toolEventLoop allCallbacks evs resp).2.2 with
    | some m => simpa [process_node, handle_tool_call, hl] using h
    | none => simpa [process_node, handle_tool_call, hl] using h
  | other => simp [process_node, traceToolCalls, traceToolResults]

theorem process_agent_run_err (cbs : Callbacks) (ns : List Node)
    (resp : Response) :
    (process_agent_run cbs ns resp).2.2 = nodesFirstErr ns := by
  induction ns generalizing resp with
  | nil => simp [process_agent_run, nodesFirstErr]
  | cons n rest ih =>
    have hn := process_node_err cbs n resp
    cases hcase : nodeFirstErr n with
    | some m =>
      simp [process_agent_run, hn, hcase, nodesFirstErr]
    | none =>
      simp [process_agent_run, hn, hcase, nodesFirstErr, ih]

theorem process_agent_run_error_field (cbs : Callbacks) (ns : List Node)
    (resp : Response) :
    (process_agent_run cbs ns resp).1.error = resp.error := by
  induction ns generalizing resp with
  | nil => simp [process_agent_run]
  | cons n rest ih =>
    have hn := process_node_error_field cbs n resp
    cases herr : (process_node cbs n resp).2.2 with
    | some m => simp [process_agent_run, herr, hn]
    | none => simp [process_agent_run, herr, ih, hn]

theorem process_agent_run_lists (ns : List Node) (resp : Response) :
    (process_agent_run allCallbacks ns resp).1.tool_calls
        = resp.tool_calls
            ++ traceToolCalls (process_agent_run allCallbacks ns resp).2.1
    ∧ (process_agent_run allCallbacks ns resp).1.tool_results
        = resp.tool_results
            ++ traceToolResults (process_agent_run allCallbacks ns resp).2.1 := by
  induction ns generalizing resp with
  | nil => simp [process_agent_run, traceToolCalls, traceToolResults]
  | cons n rest ih =>
    have hn := process_node_lists n resp
    cases herr : (process_node allCallbacks n resp).2.2 with
    | some m => simpa [process_agent_run, herr] using hn
    | none =>
      have hr := ih (process_node allCallbacks n resp).1
      constructor
      · simp [process_agent_run, herr, hr.1, hn.1, traceToolCalls_append,
          List.append_assoc]
      · simp [process_agent_run, herr, hr.2, hn.2, traceToolResults_append,
          List.append_assoc]

theorem toolEventStep_mono (cbs : Callbacks) (resp : Response) (e : ToolEvent) :
    ∃ s1 s2, (toolEventStep cbs resp e).1.tool_calls = resp.tool_calls ++ s1
      ∧ (toolEventStep cbs resp e).1.tool_results = resp.tool_results ++ s2 := by
  cases e with
  | callPart name args =>
    cases args with
    | some a =>
      simp only [toolEventStep]
      split
      · exact ⟨[⟨name, a⟩], [], by simp, by simp⟩
      · exact ⟨[], [], by simp, by simp⟩
    | none => exact ⟨[], [], by simp [toolEventStep], by simp [toolEventStep]⟩
  | result content =>
    cases content with
    | nil => exact ⟨[], [], by simp [toolEventStep], by simp [toolEventStep]⟩
    | cons t rest =>
      exact ⟨[], [t], by simp [toolEventStep], by simp [toolEventStep]⟩
  | other => exact ⟨[], [], by simp [toolEventStep], by simp [toolEventStep]⟩

theorem toolEventLoop_mono (cbs : Callbacks) (evs : List ToolEvent)
    (resp : Response) :
    ∃ s1 s2, (toolEventLoop cbs evs resp).1.tool_calls = resp.tool_calls ++ s1
      ∧ (toolEventLoop cbs evs resp).1.tool_results
          = resp.tool_results ++ s2 := by
  induction evs generalizing resp with
  | nil => exact ⟨[], [], by simp [toolEventLoop], by simp [toolEventLoop]⟩
  | cons e rest ih =>
    obtain ⟨s1, s2, h1, h2⟩ := toolEventStep_mono cbs resp e
    cases herr : (toolEventStep cbs resp e).2.2 with
    | some m =>
      exact ⟨s1, s2, by simp [toolEventLoop, herr, h1],
        by simp [toolEventLoop, herr, h2]⟩
    | none =>
      obtain ⟨r1, r2, hr1, hr2⟩ := ih (toolEventStep cbs resp e).1
      refine ⟨s1 ++ r1, s2 ++ r2, ?_, ?_⟩
      · simp [toolEventLoop, herr, hr1, h1, List.append_assoc]
      · simp [toolEventLoop, herr, hr2, h2, List.append_assoc]

theorem process_node_mono (cbs : Callbacks) (n : Node) (resp : Response) :
    ∃ s1 s2, (process_node cbs n resp).1.tool_calls = resp.tool_calls ++ s1
      ∧ (process_node cbs n resp).1.tool_results
          = resp.tool_results ++ s2 := by
  cases n with
  | modelRequest evs se =>
    cases se <;>
      exact ⟨[], [], by simp [process_node, handle_model_request],
        by simp [process_node, handle_model_request]⟩
  | callTools evs se =>
    obtain ⟨s1, s2, h1, h2⟩ := toolEventLoop_mono cbs evs resp
    cases hl : (toolEventLoop cbs evs resp).2.2 with
    | some m =>
      exact ⟨s1, s2, by simp [process_node, handle_tool_call, hl, h1],
        by simp [process_node, handle_tool_call, hl, h2]⟩
    | none =>
      exact ⟨s1, s2, by simp [process_node, handle_tool_call, hl, h1],
        by simp [process_node, handle_tool_call, hl, h2]⟩
  | other => exact ⟨[], [], by simp [process_node], by simp [process_node]⟩

theorem process_agent_run_mono (cbs : Callbacks) (ns : List Node)
    (resp : Response) :
    ∃ s1 s2, (process_agent_run cbs ns resp).1.tool_calls
        = resp.tool_calls ++ s1
      ∧ (process_agent_run cbs ns resp).1.tool_results
          = resp.tool_results ++ s2 := by
  induction ns generalizing resp with
  | nil => exact ⟨[], [], by simp [process_agent_run], by simp [process_agent_run]⟩
  | cons n rest ih =>
    obtain ⟨s1, s2, h1, h2⟩ := process_node_mono cbs n resp
    cases herr : (process_node cbs n resp).2.2 with
    | some m =>
      exact ⟨s1, s2, by simp [process_agent_run, herr, h1],
        by simp [process_agent_run, herr, h2]⟩
    | none =>
      obtain ⟨r1, r2, hr1, hr2⟩ := ih (process_node cbs n resp).1
      refine ⟨s1 ++ r1, s2 ++ r2, ?_, ?_⟩
      · simp [process_agent_run, herr, hr1, h1, List.append_assoc]
      · simp [process_agent_run, herr, hr2, h2, List.append_assoc]

theorem process_agent_run_content (cbs : Callbacks) (ns : List Node)
    (resp : Response) (h : runErrorFree ns = true) :
    (process_agent_run cbs ns resp).1.assistant_content
      = (lastModelText ns).getD resp.assistant_content := by
  induction ns generalizing resp with
  | nil => simp [process_agent_run, lastModelText]
  | cons n rest ih =>
    have hn : nodeErrorFree n = true := by
      simp [runErrorFree, List.all_cons] at h
      exact h.1
    have hrest : runErrorFree rest = true := by
      simp [runErrorFree, List.all_cons] at h
      simpa [runErrorFree] using h.2
    have herr : (process_node cbs n resp).2.2 = none := by
      rw [process_node_err]
      simpa [nodeErrorFree, Option.isNone_iff_eq_none] using hn
    cases n with
    | modelRequest evs se =>
      have hse : se = none := by
        simpa [nodeErrorFree, nodeFirstErr, Option.isNone_iff_eq_none] using hn
      subst hse
      have hc := handle_model_request_content cbs evs resp
      have := ih (process_node cbs (Node.modelRequest evs none) resp).1 hrest
      rw [process_agent_run, herr] at *
      simp only [this]
      cases hlast : lastModelText rest with
      | some s => simp [lastModelText, hlast]
      | none =>
        simp [lastModelText, hlast, process_node, hc]
    | callTools evs se =>
      have hframe := toolEventLoop_frame cbs evs resp
      have hcontent : (process_node cbs (Node.callTools evs se) resp).1.assistant_content
          = resp.assistant_content := by
        cases hl : (toolEventLoop cbs evs resp).2.2 with
        | some m => simp [process_node, handle_tool_call, hl, hframe.1]
        | none => simp [process_node, handle_tool_call, hl, hframe.1]
      have := ih (process_node cbs (Node.callTools evs se) resp).1 hrest
      rw [process_agent_run, herr]
      simp only [this, hcontent, lastModelText]
    | other =>
      have := ih resp hrest
      rw [process_agent_run, herr]
      simpa [process_node, lastModelText] using this

theorem runErrorFree_nodesFirstErr (ns : List Node)
    (h : runErrorFree ns = true) : nodesFirstErr ns = none := by
  induction ns with
  | nil => simp [nodesFirstErr]
  | cons n rest ih =>
    simp [runErrorFree, List.all_cons] at h
    have hn : nodeFirstErr n = none := by
      simpa [nodeErrorFree, Option.isNone_iff_eq_none] using h.1
    have hr := ih (by simpa [runErrorFree] using h.2)
    simp [nodesFirstErr, hn, hr]

/-! ### Claims -/

/-- Claim C1, counterexample: a model-request node streams the delta `"Hi"`
(the `on_assistant_message` callback fires with it) and then its stream
raises; `process_input` returns with `error` set, but the partial
`assistant_content` accumulated before the exception is absent from the
returned record, contradicting the claim that any partial
`assistant_content` collected before the exception is retained. -/
theorem process_input_partial_content_lost :
    (process_input allCallbacks
        ⟨[Node.modelRequest [ModelEvent.contentDelta (some "Hi")] (some "boom")],
          none⟩).2
      = [CallbackCall.assistantMsg "Hi"]
    ∧ (process_input allCallbacks
        ⟨[Node.modelRequest [ModelEvent.contentDelta (some "Hi")] (some "boom")],
          none⟩).1
      = { assistant_content := "", tool_calls := [], tool_results := [],
          error := some "boom" } := by
  exact ⟨rfl, rfl⟩

/-- Claim C1, amended: `process_input` always returns a response record; its
`error` field equals the string representation of the first exception
encountered during the run (or is absent when none occurs), and the record
retains every `tool_calls` entry and every `tool_results` entry dispatched
before the exception (exactly the ones delivered through callbacks, in
order).  Partial `assistant_content` of the node in which the exception
arose is NOT retained (see the counterexample); only text of model-request
nodes whose streams completed survives. -/
theorem process_input_absorbs_errors (run : RunOutcome) :
    (process_input allCallbacks run).1.error = firstExceptionMsg run
    ∧ (process_input allCallbacks run).1.tool_calls
        = traceToolCalls (process_input allCallbacks run).2
    ∧ (process_input allCallbacks run).1.tool_results
        = traceToolResults (process_input allCallbacks run).2 := by
  have herr := process_agent_run_err allCallbacks run.nodes freshResponse
  have hfield : (process_agent_run allCallbacks run.nodes freshResponse).1.error
      = none :=
    (process_agent_run_error_field allCallbacks run.nodes freshResponse).trans rfl
  have hlists := process_agent_run_lists run.nodes freshResponse
  have h1 : (process_agent_run allCallbacks run.nodes freshResponse).1.tool_calls
      = traceToolCalls (process_agent_run allCallbacks run.nodes freshResponse).2.1 := by
    have hl := hlists.1
    rwa [show freshResponse.tool_calls = [] from rfl, List.nil_append] at hl
  have h2 : (process_agent_run allCallbacks run.nodes freshResponse).1.tool_results
      = traceToolResults (process_agent_run allCallbacks run.nodes freshResponse).2.1 := by
    have hl := hlists.2
    rwa [show freshResponse.tool_results = [] from rfl, List.nil_append] at hl
  simp only [process_input, firstExceptionMsg]
  rw [herr]
  cases hn : nodesFirstErr run.nodes with
  | some m => simp [h1, h2]
  | none =>
    cases hi : run.iterErr with
    | some m => simp [hi, h1, h2]
    | none => simp [hi, h1, h2, hfield]

/-- Claim C2: processing one model-request node (stream exhausted normally)
sets the record's `assistant_content` to the concatenation of the node's
text deltas, and `on_assistant_message`, when supplied, is invoked exactly
once per non-empty delta, with that delta, in arrival order (and never when
not supplied). -/
theorem model_request_accumulates_deltas (evs : List ModelEvent)
    (resp : Response) :
    (process_node allCallbacks (Node.modelRequest evs none) resp).1.assistant_content
      = concatStrings (modelDeltas evs)
    ∧ (process_node allCallbacks (Node.modelRequest evs none) resp).2.1
        = ((modelDeltas evs).filter (fun d => d ≠ "")).map CallbackCall.assistantMsg
    ∧ (process_node noCallbacks (Node.modelRequest evs none) resp).2.1 = [] := by
  refine ⟨handle_model_request_content allCallbacks evs resp, ?_, ?_⟩
  · rw [process_node, handle_model_request]
    simp [collectModel_eq, allCallbacks]
  · rw [process_node, handle_model_request]
    simp [collectModel_eq, noCallbacks]

/-- Claim C3, counterexample: a tool-call event whose argument text is the
single space `" "` — non-empty and different from the literal open-close
brace pair — appends nothing to `tool_calls` and fires no callback, because
the code tests the whitespace-stripped text, contradicting the claim that
every non-empty, non-brace-pair argument text yields exactly one entry. -/
theorem tool_call_space_args_skipped :
    (" " ≠ "") ∧ (" " ≠ "\x7b\x7d")
    ∧ (process_node allCallbacks
        (Node.callTools [ToolEvent.callPart "echo" (some " ")] none)
        freshResponse).1.tool_calls = []
    ∧ (process_node allCallbacks
        (Node.callTools [ToolEvent.callPart "echo" (some " ")] none)
        freshResponse).2.1 = [] := by
  refine ⟨by decide, by decide, rfl, rfl⟩

/-- Claim C3, amended: a tool-call event appends exactly one
`{tool_name, args}` entry (with the unstripped argument text) and fires
`on_tool_call` once with that entry when its argument text is present,
non-empty, and its whitespace-stripped form is neither empty nor the
two-character open-close brace pair; otherwise (argument text absent, empty,
or stripping to one of those two strings) nothing is appended and the
callback does not fire. -/
theorem tool_call_append_characterization (name : String) (args : Option String)
    (resp : Response) :
    (∀ a, args = some a → a ≠ "" → pyStrip a ≠ "" → pyStrip a ≠ "\x7b\x7d" →
      (process_node allCallbacks
          (Node.callTools [ToolEvent.callPart name args] none) resp).1.tool_calls
          = resp.tool_calls ++ [⟨name, a⟩]
        ∧ (process_node allCallbacks
            (Node.callTools [ToolEvent.callPart name args] none) resp).2.1
          = [CallbackCall.toolCall ⟨name, a⟩])
    ∧ (∀ a, args = some a → (a = "" ∨ pyStrip a = "" ∨ pyStrip a = "\x7b\x7d") →
      (process_node allCallbacks
          (Node.callTools [ToolEvent.callPart name args] none) resp).1.tool_calls
          = resp.tool_calls
        ∧ (process_node allCallbacks
            (Node.callTools [ToolEvent.callPart name args] none) resp).2.1 = [])
    ∧ (args = none →
      (process_node allCallbacks
          (Node.callTools [ToolEvent.callPart name args] none) resp).1.tool_calls
          = resp.tool_calls
        ∧ (process_node allCallbacks
            (Node.callTools [ToolEvent.callPart name args] none) resp).2.1 = []) := by
  refine ⟨?_, ?_, ?_⟩
  · intro a ha h1 h2 h3
    subst ha
    constructor <;>
      simp [process_node, handle_tool_call, toolEventLoop, toolEventStep,
        allCallbacks, h1, h2, h3]
  · intro a ha hcase
    subst ha
    rcases hcase with h | h | h <;>
      (constructor <;>
        simp [process_node, handle_tool_call, toolEventLoop, toolEventStep, h])
  · intro ha
    subst ha
    constructor <;>
      simp [process_node, handle_tool_call, toolEventLoop, toolEventStep]

/-- Claim C3, amended, witness: a concrete non-empty argument text whose
stripped form is neither excluded string yields exactly one appended entry. -/
theorem tool_call_append_characterization_witness :
    (process_node allCallbacks
        (Node.callTools [ToolEvent.callPart "add" (some "x=1")] none)
        freshResponse).1.tool_calls
      = [{ tool_name := "add", args := "x=1" }] := by
  have h := (tool_call_append_characterization "add" (some "x=1")
      freshResponse).1 "x=1" rfl (by decide) (by decide) (by decide)
  simpa [freshResponse] using h.1

/-- Claim C4, counterexample: a tool-result event whose payload has no text
segments appends nothing to `tool_results`, fires no callback, and raises
the index error that aborts the call — contradicting the claim that every
tool-result event appends exactly one text. -/
theorem tool_result_empty_payload_raises :
    (process_node allCallbacks (Node.callTools [ToolEvent.result []] none)
        freshResponse).1.tool_results = []
    ∧ (process_node allCallbacks (Node.callTools [ToolEvent.result []] none)
        freshResponse).2.1 = []
    ∧ (process_node allCallbacks (Node.callTools [ToolEvent.result []] none)
        freshResponse).2.2 = some "list index out of range" := by
  exact ⟨rfl, rfl, rfl⟩

/-- Claim C4, amended: for a tool-result event whose payload contains at
least one text segment, exactly the first segment is appended to
`tool_results` and `on_tool_result` fires once with that text; a tool-result
event with an empty payload appends nothing and raises the unguarded index
error instead. -/
theorem tool_result_appends_first_segment (t : String) (rest : List String)
    (resp : Response) :
    (process_node allCallbacks
        (Node.callTools [ToolEvent.result (t :: rest)] none) resp).1.tool_results
      = resp.tool_results ++ [t]
    ∧ (process_node allCallbacks
        (Node.callTools [ToolEvent.result (t :: rest)] none) resp).2.1
      = [CallbackCall.toolResult t]
    ∧ (process_node allCallbacks
        (Node.callTools [ToolEvent.result (t :: rest)] none) resp).2.2 = none
    ∧ (process_node allCallbacks
        (Node.callTools [ToolEvent.result []] none) resp).1.tool_results
      = resp.tool_results
    ∧ (process_node allCallbacks
        (Node.callTools [ToolEvent.result []] none) resp).2.2
      = some "list index out of range" := by
  refine ⟨?_, ?_, ?_, ?_, ?_⟩ <;>
    simp [process_node, handle_tool_call, toolEventLoop, toolEventStep,
      allCallbacks]

/-- Claim C5: with no history the effective prompt is the user input
verbatim; with a non-empty history it is the serialized history between the
fixed marker texts followed by the user input, and is never equal to the
user input alone. -/
theorem prepare_input_prompt_spec (u : String) (h : List String)
    (hne : h ≠ []) :
    prepare_input_with_history u none = u
    ∧ prepare_input_with_history u (some h)
        = "Previous conversation:\n" ++ jsonDumps h
            ++ "\n\nCurrent query: " ++ u
    ∧ prepare_input_with_history u (some h) ≠ u := by
  refine ⟨rfl, ?_, ?_⟩
  · simp [prepare_input_with_history, hne]
  · intro heq
    rw [prepare_input_with_history] at heq
    rw [if_neg hne] at heq
    have hlen := congrArg String.length heq
    simp only [String.length_append] at hlen
    have hpos : 0 < ("Previous conversation:\n").length := by decide
    omega

/-- Claim C5, witness: concrete instantiation with one history entry. -/
theorem prepare_input_prompt_spec_witness :
    prepare_input_with_history "2+2" (some ["turn one"]) ≠ "2+2" :=
  (prepare_input_prompt_spec "2+2" ["turn one"] (by decide)).2.2

/-- Claim C6: in an exception-free run, each model-request node overwrites
`assistant_content`, so the returned record holds the accumulated text of
only the last model-request node encountered (empty when there is none). -/
theorem assistant_content_last_model_node (cbs : Callbacks) (ns : List Node)
    (h : runErrorFree ns = true) :
    (process_input cbs ⟨ns, none⟩).1.assistant_content
      = (lastModelText ns).getD "" := by
  have hc := process_agent_run_content cbs ns freshResponse h
  have hne : nodesFirstErr ns = none := runErrorFree_nodesFirstErr ns h
  have he := process_agent_run_err cbs ns freshResponse
  simp only [process_input]
  rw [he]
  simp only [hne]
  exact hc

/-- Claim C6, witness: two model-request nodes in one run; only the second
node's text survives in the returned record. -/
theorem assistant_content_last_model_node_witness :
    (process_input allCallbacks
        ⟨[Node.modelRequest [ModelEvent.contentDelta (some "A")] none,
          Node.modelRequest [ModelEvent.contentDelta (some "B")] none],
          none⟩).1.assistant_content = "B" :=
  (assistant_content_last_model_node allCallbacks
      [Node.modelRequest [ModelEvent.contentDelta (some "A")] none,
       Node.modelRequest [ModelEvent.contentDelta (some "B")] none]
      (by decide)).trans (by decide)

/-- Claim C7: the `tool_calls` and `tool_results` lists grow monotonically —
after any single tool event, any single node, or any whole node sequence,
the new list is the old list with a (possibly empty) block appended at the
end; no element is removed, reordered, or replaced. -/
theorem tool_lists_monotone (cbs : Callbacks) (e : ToolEvent) (n : Node)
    (ns : List Node) (resp : Response) :
    (∃ s1, (toolEventStep cbs resp e).1.tool_calls = resp.tool_calls ++ s1)
    ∧ (∃ s2, (toolEventStep cbs resp e).1.tool_results = resp.tool_results ++ s2)
    ∧ (∃ s3, (process_node cbs n resp).1.tool_calls = resp.tool_calls ++ s3)
    ∧ (∃ s4, (process_node cbs n resp).1.tool_results = resp.tool_results ++ s4)
    ∧ (∃ s5, (process_agent_run cbs ns resp).1.tool_calls = resp.tool_calls ++ s5)
    ∧ (∃ s6, (process_agent_run cbs ns resp).1.tool_results
        = resp.tool_results ++ s6) := by
  obtain ⟨a1, a2, h1, h2⟩ := toolEventStep_mono cbs resp e
  obtain ⟨b1, b2, h3, h4⟩ := process_node_mono cbs n resp
  obtain ⟨c1, c2, h5, h6⟩ := process_agent_run_mono cbs ns resp
  exact ⟨⟨a1, h1⟩, ⟨a2, h2⟩, ⟨b1, h3⟩, ⟨b2, h4⟩, ⟨c1, h5⟩, ⟨c2, h6⟩⟩

/-- Claim C8, counterexample: the environment variable `BASE_MODEL` is
present but empty; the claim says a present value must let construction
succeed, yet the constructor raises the configuration error, because the
Python truthiness test treats an empty string like an absent one. -/
theorem init_empty_base_model_fails :
    (fun k => if k = "BASE_MODEL" then some "" else none) "BASE_MODEL"
      = some ""
    ∧ agentServiceInit (fun k => if k = "BASE_MODEL" then some "" else none)
        default_system_prompt
      = Except.error "BASE_MODEL environment variable is required" := by
  exact ⟨by simp, by simp [agentServiceInit]⟩

/-- Claim C8, amended: construction fails immediately with the configuration
error — and no agent value is ever built — exactly when `BASE_MODEL` is
absent or present but empty; when it is present and non-empty, construction
succeeds without raising and binds the agent to that model identifier. -/
theorem init_base_model_characterization (env : String → Option String)
    (sp : String) :
    (env "BASE_MODEL" = none →
      agentServiceInit env sp
        = Except.error "BASE_MODEL environment variable is required")
    ∧ (env "BASE_MODEL" = some "" →
      agentServiceInit env sp
        = Except.error "BASE_MODEL environment variable is required")
    ∧ (∀ m, env "BASE_MODEL" = some m → m ≠ "" →
      agentServiceInit env sp = Except.ok ⟨m, sp, ["mcp_server.py"]⟩) := by
  refine ⟨?_, ?_, ?_⟩
  · intro h
    simp [agentServiceInit, h]
  · intro h
    simp [agentServiceInit, h]
  · intro m h hm
    simp [agentServiceInit, h, hm]

/-- Claim C8, amended, witness: a present, non-empty model identifier makes
construction succeed. -/
theorem init_base_model_characterization_witness :
    agentServiceInit (fun _ => some "openai:gpt-4o") default_system_prompt
      = Except.ok ⟨"openai:gpt-4o", default_system_prompt, ["mcp_server.py"]⟩ :=
  (init_base_model_characterization (fun _ => some "openai:gpt-4o")
      default_system_prompt).2.2 "openai:gpt-4o" rfl (by decide)

/-- Claim C9: a node classified neither as a model-request node nor as a
tool-invocation node is skipped: the response record is returned unchanged
in every field, no callback fires, and no exception arises. -/
theorem other_nodes_skipped (cbs : Callbacks) (resp : Response) :
    process_node cbs Node.other resp = (resp, [], none) := rfl

/-- Claim C10: an empty history list is treated exactly like an absent one —
the effective prompt is the user input verbatim, with no serialized-history
block. -/
theorem empty_history_same_as_none (u : String) :
    prepare_input_with_history u (some [])
      = prepare_input_with_history u none
    ∧ prepare_input_with_history u none = u := by
  exact ⟨rfl, rfl⟩

end AgentService
